import Mathlib

/-!
# Verification of the statsdtee UDP tee (simplereach/statsdtee)

A shallow embedding, over byte sequences modelled as `List Nat`, of the core
pipeline of `main.go` (v0.3.1) and its earlier single-threaded variant
(`part_000`, v0.1): record parsing (`parseMessage`), per-destination key
rewriting and fan-out with reconnect-on-failure (`processData` /
`udpListener` of v0.1), the ingress read loop, and the startup guard of
`main`.  Definitions come first, then the lemmas and theorems about them.
-/

namespace Statsdtee

/-- The newline byte, the line separator of the inbound wire format. -/
def newlineByte : Nat := 10

/-- The colon byte, separating key from body in a `key:body` line. -/
def colonByte : Nat := 58

/-- The character class `[^:]` of the fixed packet pattern: any byte other
than a colon. -/
def notColon (c : Nat) : Bool := c != colonByte

/-- Embedding of `type Packet struct { Key []byte; Body []byte }` (main.go
lines 26-29). -/
structure Packet where
  key : List Nat
  body : List Nat
deriving DecidableEq, Repr

/-- The result of `packetRegexp.FindSubmatch(line)` for the fixed pattern
`regexp.MustCompile("^([^:]+):(.*)$")` (main.go line 52), evaluated on a
line that contains no newline byte (every line handed to it is a piece of
`bytes.Split(data, "\n")`).  The anchored pattern matches iff the line
starts with at least one non-colon byte followed by a colon; group 1 is
everything before the first colon, group 2 everything after it. -/
def packetRegexpFindSubmatch (line : List Nat) : Option (List Nat × List Nat) :=
  if (line.takeWhile notColon).length = 0 then none
  else if (line.takeWhile notColon).length = line.length then none
  else some (line.takeWhile notColon, line.drop ((line.takeWhile notColon).length + 1))

/-- The body of the loop of `parseMessage` (main.go lines 56-71) for one
line: skip empty lines, skip lines the pattern does not match, otherwise
build a `Packet` from the two submatches. -/
def lineToPacket (line : List Nat) : Option Packet :=
  if line.length = 0 then none
  else
    match packetRegexpFindSubmatch line with
    | none => none
    | some (k, b) => some ⟨k, b⟩

/-- Embedding of `parseMessage` (main.go lines 54-73): split the datagram
on newline bytes and collect, in order, the packets of the lines that
parse. -/
def parseMessage (data : List Nat) : List Packet :=
  (data.splitOn newlineByte).filterMap lineToPacket

/-- Modelled from the spec: the Go regexp engine (`regexp.Regexp`,
`ReplaceAll`, template expansion) is standard-library code outside this
repository's sources.  A destination's compiled pattern together with its
replacement template is abstracted as a match oracle: at each suffix of
the input it reports `none` (no match starting at that position) or
`some (len, rep)` — the byte length of the leftmost match starting there
and the replacement template expanded with that match's captured groups
(back-references such as `$1` included). -/
def MatchOracle : Type := List Nat → Option (Nat × List Nat)

/-- Modelled from the spec: one left-to-right scan of
`Regexp.ReplaceAll(src, repl)` — at each position, if a match starts
there, emit the expanded replacement and continue after the match
(advancing one byte when the match is empty, as Go does); otherwise keep
the byte and move one position right.  `fuel` only bounds the recursion
(each step consumes at least one byte, so any `fuel` above the input
length is exhaustive); out of fuel the rest is returned unchanged. -/
def replaceAllFuel (m : MatchOracle) : Nat → List Nat → List Nat
  | 0, s => s
  | _ + 1, [] =>
    match m [] with
    | none => []
    | some (_, rep) => rep
  | fuel + 1, c :: rest =>
    match m (c :: rest) with
    | none => c :: replaceAllFuel m fuel rest
    | some (len, rep) =>
      if len = 0 then rep ++ c :: replaceAllFuel m fuel rest
      else rep ++ replaceAllFuel m fuel (rest.drop (len - 1))

/-- Modelled from the spec: `Regexp.ReplaceAll(src, repl)` returns `src`
with all non-overlapping matches of the pattern replaced by the expanded
template, scanning from the left. -/
def replaceAll (m : MatchOracle) (s : List Nat) : List Nat :=
  replaceAllFuel m (s.length + 1) s

/-- Embedding of `type Destination struct` (main.go lines 20-24): the
network address, and the compiled regex together with its replacement
template, the latter two abstracted as one match oracle (see
`MatchOracle`). -/
structure Destination where
  address : List Nat
  regex : MatchOracle

instance : Inhabited Destination :=
  ⟨⟨[], fun _ => none⟩⟩

/-- The outbound payload for one packet at one destination (main.go lines
88-89): `fmt.Sprintf("%s:%s", destination.Regex.ReplaceAll(p.Key,
destination.Replace), p.Body)` — the rewritten key, one colon byte, then
the body, and nothing else (in particular no trailing newline). -/
def outboundPayload (d : Destination) (p : Packet) : List Nat :=
  replaceAll d.regex p.key ++ colonByte :: p.body

/-- An observable network action of the router.  `send i sock payload ok`
is `conn.Write([]byte(packet))` on destination `i`'s current socket
(main.go line 91); `reconnect i addr sock ok` is the
`net.DialTimeout("udp", destination.Address, time.Second)` of main.go
line 97, which would create the socket with fresh id `sock`. -/
inductive Event where
  | send (dest : Nat) (sock : Nat) (payload : List Nat) (ok : Bool)
  | reconnect (dest : Nat) (addr : List Nat) (sock : Nat) (ok : Bool)
deriving DecidableEq, Repr

/-- The environment: whether a given write on a given socket succeeds, and
whether a given dial (identified by the destination address and the fresh
socket id it would create) succeeds.  The router is deterministic relative
to this oracle. -/
structure Oracle where
  writeOk : Nat → List Nat → Bool
  dialOk : List Nat → Nat → Bool

/-- Router state: the parallel array `destConns` of socket ids (main.go
line 76), a counter supplying fresh socket ids, the trace of network
events so far, and whether `log.Fatalf` has terminated the process. -/
structure RouterState where
  conns : List Nat
  nextSock : Nat
  events : List Event
  dead : Bool
deriving DecidableEq, Repr

/-- One iteration of the per-destination loop body (main.go lines 88-102)
at destination index `i`: rewrite the key, format the packet, write it; on
write failure log, close the socket and dial once toward the same
destination address; a failed dial is `log.Fatalf`, modelled by the `dead`
flag — a dead process performs no further actions. -/
def sendToDest (o : Oracle) (i : Nat) (d : Destination) (p : Packet)
    (st : RouterState) : RouterState :=
  if st.dead then st
  else if o.writeOk (st.conns.getD i 0) (outboundPayload d p) then
    { st with
      events := st.events ++
        [Event.send i (st.conns.getD i 0) (outboundPayload d p) true] }
  else if o.dialOk d.address st.nextSock then
    { conns := st.conns.set i st.nextSock
      nextSock := st.nextSock + 1
      events := st.events ++
        [Event.send i (st.conns.getD i 0) (outboundPayload d p) false,
         Event.reconnect i d.address st.nextSock true]
      dead := false }
  else
    { st with
      nextSock := st.nextSock + 1
      events := st.events ++
        [Event.send i (st.conns.getD i 0) (outboundPayload d p) false,
         Event.reconnect i d.address st.nextSock false]
      dead := true }

/-- The `for i, destination := range destinations` loop (main.go lines
87-103), resumed from index `i`. -/
def processRecordFrom (o : Oracle) (dests : List Destination) (i : Nat)
    (p : Packet) (st : RouterState) : RouterState :=
  match dests with
  | [] => st
  | d :: rest => processRecordFrom o rest (i + 1) p (sendToDest o i d p st)

/-- Fan-out of one parsed record to every destination, in configuration
order (main.go lines 87-103). -/
def processRecord (o : Oracle) (dests : List Destination) (p : Packet)
    (st : RouterState) : RouterState :=
  processRecordFrom o dests 0 p st

/-- Processing of one raw datagram (main.go lines 86-104): parse it, then
fan out each record in order. -/
def processDatagram (o : Oracle) (dests : List Destination) (data : List Nat)
    (st : RouterState) : RouterState :=
  (parseMessage data).foldl (fun s p => processRecord o dests p s) st

/-- The payloads of the write attempts made to destination `j`, in trace
order. -/
def sendsForDest (j : Nat) (evs : List Event) : List (List Nat) :=
  evs.filterMap (fun e =>
    match e with
    | Event.send i _ payload _ => if i = j then some payload else none
    | Event.reconnect _ _ _ _ => none)

/-- A concrete environment in which every write and every dial succeeds. -/
def oracleAllOk : Oracle where
  writeOk := fun _ _ => true
  dialOk := fun _ _ => true

/-- A concrete environment in which every write fails and every dial
succeeds. -/
def oracleWritesFail : Oracle where
  writeOk := fun _ _ => false
  dialOk := fun _ _ => true

/-- A concrete destination whose pattern never matches. -/
def destIdA : Destination :=
  ⟨[97], fun _ => none⟩

/-- A second concrete destination whose pattern never matches. -/
def destIdB : Destination :=
  ⟨[98], fun _ => none⟩

/-- A concrete alive router state with two connections. -/
def stInit : RouterState :=
  ⟨[5, 7], 100, [], false⟩

/-- One buffer handoff of the ingress loop: the identity of the buffer the
datagram was read into and the bytes passed onward (`message[:n]`). -/
structure Handoff where
  buf : Nat
  bytes : List Nat
deriving DecidableEq, Repr

/-- The read loop of `udpListener` in main.go (lines 122-132): each
iteration executes `message := make([]byte, 512)` — a fresh allocation,
modelled by a fresh buffer id per iteration — then `ReadFromUDP`; a read
error is logged and the iteration skipped, otherwise `message[:n]` (the
first at most 512 bytes of the datagram) goes onto the channel.  `reads`
lists the outcome of each `ReadFromUDP` call: `none` a read error, `some
d` a datagram with payload `d`. -/
def udpListenerLoopFrom (bufId : Nat) : List (Option (List Nat)) → List Handoff
  | [] => []
  | none :: rest => udpListenerLoopFrom (bufId + 1) rest
  | some d :: rest => ⟨bufId, d.take 512⟩ :: udpListenerLoopFrom (bufId + 1) rest

/-- The main.go read loop, started with its first fresh buffer. -/
def udpListenerLoop (reads : List (Option (List Nat))) : List Handoff :=
  udpListenerLoopFrom 0 reads

/-- The read loop of `udpListener` in part_000 (lines 93-99): the single
buffer `message := make([]byte, 512)` is allocated once before the loop
(buffer id 0) and reused by every iteration. -/
def udpListenerLoopV1 (reads : List (Option (List Nat))) : List Handoff :=
  reads.filterMap (fun r => r.map (fun d => ⟨0, d.take 512⟩))

/-- A startup-time action of `main`. -/
inductive StartAction where
  | fatalExit
  | bindSocket
  | dialDest (addr : List Nat)
deriving DecidableEq, Repr

/-- The startup of `main` (main.go lines 143-164) as the ordered sequence
of process-level actions it triggers: after building the destination list,
`len(destinations) == 0` causes `log.Fatalf` — a logged diagnostic and a
non-zero exit — BEFORE `go udpListener(dataCh)` (which performs the
inbound bind) and before `processData` (which dials each destination).
Otherwise the listener's bind and the router's initial dials are started
(their mutual interleaving is concurrent; only the zero-destination branch
is examined by the claims). -/
def mainStart (dests : List Destination) : List StartAction :=
  if dests.length = 0 then [StartAction.fatalExit]
  else StartAction.bindSocket :: dests.map (fun d => StartAction.dialDest d.address)

/-! ### Sanity checks on concrete inputs -/

example : parseMessage [107, colonByte, 49] = [⟨[107], [49]⟩] := by decide
example : parseMessage [] = [] := by decide
example : parseMessage [107, 107] = [] := by decide
example : parseMessage [colonByte, 49] = [] := by decide
example :
    parseMessage [97, colonByte, 49, newlineByte, newlineByte, 98, colonByte] =
      [⟨[97], [49]⟩, ⟨[98], []⟩] := by decide
example : parseMessage [97, colonByte, 49, colonByte, 50] = [⟨[97], [49, colonByte, 50]⟩] := by
  decide
example : replaceAll (fun _ => none) [1, 2, 3] = [1, 2, 3] := by decide
example :
    replaceAll (fun s => if s.take 1 = [1] then some (1, [9, 9]) else none) [1, 2, 1] =
      [9, 9, 2, 9, 9] := by decide

/-! ### Helper lemmas about the first-colon split -/

lemma length_takeWhile_le_self (line : List Nat) :
    (line.takeWhile notColon).length ≤ line.length := by
  induction line with
  | nil => simp
  | cons c rest ih =>
    by_cases h : notColon c = true
    · rw [List.takeWhile_cons_of_pos h]
      simpa using ih
    · rw [List.takeWhile_cons_of_neg (by simpa using h)]
      simp

lemma takeWhile_notColon_append (k b : List Nat) (hk : ∀ c ∈ k, c ≠ colonByte) :
    (k ++ colonByte :: b).takeWhile notColon = k := by
  induction k with
  | nil =>
    rw [List.nil_append]
    exact List.takeWhile_cons_of_neg (by simp [notColon])
  | cons c rest ih =>
    have hc : c ≠ colonByte := hk c (List.mem_cons_self c rest)
    rw [List.cons_append, List.takeWhile_cons_of_pos (by simp [notColon, hc])]
    rw [ih (fun x hx => hk x (List.mem_cons_of_mem c hx))]

lemma takeWhile_notColon_all (line : List Nat) (h : ∀ c ∈ line, c ≠ colonByte) :
    line.takeWhile notColon = line := by
  induction line with
  | nil => rfl
  | cons c rest ih =>
    rw [List.takeWhile_cons_of_pos (by simp [notColon, h c (List.mem_cons_self c rest)])]
    rw [ih (fun x hx => h x (List.mem_cons_of_mem c hx))]

lemma drop_length_succ_append (k b : List Nat) (x : Nat) :
    (k ++ x :: b).drop (k.length + 1) = b := by
  induction k with
  | nil => simp
  | cons c rest ih =>
    simp only [List.cons_append, List.length_cons, List.drop_succ_cons]
    exact ih

/-- A line in which the key scan stops strictly early decomposes as key,
colon, remainder. -/
lemma takeWhile_colon_recon (line : List Nat)
    (h : (line.takeWhile notColon).length < line.length) :
    line = line.takeWhile notColon ++
      colonByte :: line.drop ((line.takeWhile notColon).length + 1) := by
  induction line with
  | nil => simp at h
  | cons c rest ih =>
    by_cases hc : c = colonByte
    · subst hc
      rw [List.takeWhile_cons_of_neg (by simp [notColon])]
      simp
    · rw [List.takeWhile_cons_of_pos (by simp [notColon, hc])] at h ⊢
      have h' : (rest.takeWhile notColon).length < rest.length := by simpa using h
      have hr := ih h'
      simp only [List.length_cons, List.cons_append, List.drop_succ_cons]
      exact congrArg (List.cons c) hr

/-- Inversion for a successful line parse. -/
lemma lineToPacket_eq_some_iff (line : List Nat) (pkt : Packet) :
    lineToPacket line = some pkt ↔
      (line.takeWhile notColon).length ≠ 0 ∧
      (line.takeWhile notColon).length ≠ line.length ∧
      pkt = ⟨line.takeWhile notColon, line.drop ((line.takeWhile notColon).length + 1)⟩ := by
  have hle := length_takeWhile_le_self line
  unfold lineToPacket packetRegexpFindSubmatch
  by_cases h0 : line.length = 0
  · rw [if_pos h0]
    constructor
    · intro h
      exact absurd h (by simp)
    · rintro ⟨h1, _, _⟩
      omega
  · rw [if_neg h0]
    by_cases h1 : (line.takeWhile notColon).length = 0
    · rw [if_pos h1]
      constructor
      · intro h
        exact absurd h (by simp)
      · rintro ⟨hc, _, _⟩
        exact absurd h1 hc
    · rw [if_neg h1]
      by_cases h2 : (line.takeWhile notColon).length = line.length
      · rw [if_pos h2]
        constructor
        · intro h
          exact absurd h (by simp)
        · rintro ⟨_, hc, _⟩
          exact absurd h2 hc
      · rw [if_neg h2]
        constructor
        · intro h
          refine ⟨h1, h2, ?_⟩
          have := Option.some.inj h
          rw [← this]
        · rintro ⟨_, _, rfl⟩
          rfl

lemma lineToPacket_valid (k b : List Nat) (hk : k ≠ []) (hkc : ∀ c ∈ k, c ≠ colonByte) :
    lineToPacket (k ++ colonByte :: b) = some ⟨k, b⟩ := by
  rw [lineToPacket_eq_some_iff]
  rw [takeWhile_notColon_append k b hkc]
  have hkpos : 0 < k.length := List.length_pos.mpr hk
  have hlen : (k ++ colonByte :: b).length = k.length + (b.length + 1) := by simp
  refine ⟨by omega, by omega, ?_⟩
  rw [drop_length_succ_append]

lemma filterMap_lineToPacket_map (prs : List (List Nat × List Nat))
    (hvalid : ∀ kb ∈ prs, kb.1 ≠ [] ∧ ∀ c ∈ kb.1, c ≠ colonByte) :
    (prs.map fun kb => kb.1 ++ colonByte :: kb.2).filterMap lineToPacket
      = prs.map fun kb => Packet.mk kb.1 kb.2 := by
  induction prs with
  | nil => rfl
  | cons kb tl ih =>
    rcases hvalid kb (List.mem_cons_self kb tl) with ⟨hk, hkc⟩
    simp only [List.map_cons, List.filterMap_cons, lineToPacket_valid kb.1 kb.2 hk hkc]
    exact congrArg _ (ih (fun x hx => hvalid x (List.mem_cons_of_mem kb hx)))

/-! ### Record parser claims (C1, C2, C10) -/

/-- Claim C1: for a buffer of `n` valid `key:body` lines joined by newline
bytes (each key non-empty, colon-free and newline-free, each body
newline-free), `parseMessage` returns exactly those `n` records, in order,
with key and body split at the first colon. -/
theorem parseMessage_valid_lines (prs : List (List Nat × List Nat))
    (hvalid : ∀ kb ∈ prs, kb.1 ≠ [] ∧ (∀ c ∈ kb.1, c ≠ colonByte) ∧
      newlineByte ∉ kb.1 ∧ newlineByte ∉ kb.2) :
    parseMessage ([newlineByte].intercalate (prs.map fun kb => kb.1 ++ colonByte :: kb.2))
      = prs.map fun kb => Packet.mk kb.1 kb.2 := by
  rcases prs with _ | ⟨kb0, rest⟩
  · rfl
  · have hx : ∀ l ∈ (kb0 :: rest).map (fun kb => kb.1 ++ colonByte :: kb.2),
        newlineByte ∉ l := by
      intro l hl
      rcases List.mem_map.mp hl with ⟨kb, hkb, rfl⟩
      rcases hvalid kb hkb with ⟨_, _, hnk, hnb⟩
      intro hmem
      rcases List.mem_append.mp hmem with h | h
      · exact hnk h
      · rcases List.mem_cons.mp h with h | h
        · exact absurd h (by decide)
        · exact hnb h
    unfold parseMessage
    rw [List.splitOn_intercalate _ newlineByte hx (List.cons_ne_nil _ _)]
    exact filterMap_lineToPacket_map _
      (fun kb hkb => ⟨(hvalid kb hkb).1, (hvalid kb hkb).2.1⟩)

/-- Witness for C1 at a concrete two-line buffer. -/
theorem parseMessage_valid_lines_witness :
    parseMessage ([newlineByte].intercalate
        (([([107], [49, colonByte, 50]), ([104], [])] : List (List Nat × List Nat)).map
          fun kb => kb.1 ++ colonByte :: kb.2))
      = [⟨[107], [49, colonByte, 50]⟩, ⟨[104], []⟩] :=
  parseMessage_valid_lines _ (by decide)

/-- Claim C2: an empty line, or a line with no colon, yields no packet; a
newline-free line in a larger buffer is parsed exactly as in isolation
(`parseMessage` is the per-line parse applied independently to every line
of the newline split, so dropping a bad line cannot affect the others);
and `parseMessage` is total (a function into lists, never an error). -/
theorem parseMessage_bad_line_isolation (data line : List Nat) :
    parseMessage data = (data.splitOn newlineByte).filterMap lineToPacket
    ∧ (line.length = 0 ∨ (∀ c ∈ line, c ≠ colonByte) → lineToPacket line = none)
    ∧ (newlineByte ∉ line → parseMessage line = (lineToPacket line).toList) := by
  refine ⟨rfl, ?_, ?_⟩
  · intro hbad
    cases hres : lineToPacket line with
    | none => rfl
    | some pkt =>
      exfalso
      rcases (lineToPacket_eq_some_iff line pkt).mp hres with ⟨h1, h2, _⟩
      rcases hbad with h | h
      · have hle := length_takeWhile_le_self line
        omega
      · exact h2 (by rw [takeWhile_notColon_all line h])
  · intro hnl
    have hsplit : line.splitOn newlineByte = [line] := by
      unfold List.splitOn
      apply List.splitOnP_eq_single
      intro x hx
      simp only [beq_iff_eq]
      exact fun hxe => hnl (hxe ▸ hx)
    unfold parseMessage
    rw [hsplit]
    cases h : lineToPacket line <;> simp [List.filterMap_cons, h]

/-- Witness for C2: a colonless line yields no packet, and a single-line
buffer parses as the line does in isolation. -/
theorem parseMessage_bad_line_isolation_witness :
    lineToPacket [107, 108] = none ∧
    parseMessage [107, colonByte, 49] = (lineToPacket [107, colonByte, 49]).toList :=
  ⟨(parseMessage_bad_line_isolation [] [107, 108]).2.1 (Or.inr (by decide)),
   (parseMessage_bad_line_isolation [107, colonByte, 49] [107, colonByte, 49]).2.2 (by decide)⟩

/-- Claim C10: every packet produced by `parseMessage` has a non-empty,
colon-free key; a successfully parsed line is reconstructed byte-for-byte
as `key ++ colon ++ body`; a line whose first byte is a colon yields no
packet; and each packet's reconstructed line is one of the lines of the
newline split of the input. -/
theorem parseMessage_packet_invariants (data : List Nat) (p : Packet)
    (hp : p ∈ parseMessage data) :
    p.key ≠ [] ∧ colonByte ∉ p.key
    ∧ (∀ line pkt, lineToPacket line = some pkt → pkt.key ++ colonByte :: pkt.body = line)
    ∧ (∀ line : List Nat, line.head? = some colonByte → lineToPacket line = none)
    ∧ p.key ++ colonByte :: p.body ∈ data.splitOn newlineByte := by
  have hrecon : ∀ line pkt, lineToPacket line = some pkt →
      pkt.key ++ colonByte :: pkt.body = line := by
    intro line pkt hlp
    rcases (lineToPacket_eq_some_iff line pkt).mp hlp with ⟨h1, h2, rfl⟩
    have hlt : (line.takeWhile notColon).length < line.length :=
      lt_of_le_of_ne (length_takeWhile_le_self line) h2
    exact (takeWhile_colon_recon line hlt).symm
  rcases List.mem_filterMap.mp hp with ⟨line, hline, hlp⟩
  rcases (lineToPacket_eq_some_iff line p).mp hlp with ⟨h1, h2, hpeq⟩
  refine ⟨?_, ?_, hrecon, ?_, ?_⟩
  · rw [hpeq]
    intro hnil
    exact h1 (congrArg List.length hnil)
  · rw [hpeq]
    intro hmem
    have := List.mem_takeWhile_imp hmem
    simp [notColon] at this
  · intro l hl
    rcases l with _ | ⟨c, rest⟩
    · simp at hl
    · have hc : c = colonByte := by simpa using hl
      subst hc
      cases hres : lineToPacket (colonByte :: rest) with
      | none => rfl
      | some pkt =>
        rcases (lineToPacket_eq_some_iff _ pkt).mp hres with ⟨h1', _, _⟩
        have htw : (colonByte :: rest).takeWhile notColon = [] :=
          List.takeWhile_cons_of_neg (by simp [notColon])
        exact absurd (congrArg List.length htw) h1'
  · rw [hrecon line p hlp]
    exact hline

/-- Witness for C10 at a concrete buffer containing a colon-led line. -/
theorem parseMessage_packet_invariants_witness :
    (Packet.mk [107] [49]).key ≠ [] ∧ colonByte ∉ (Packet.mk [107] [49]).key
    ∧ (∀ line pkt, lineToPacket line = some pkt → pkt.key ++ colonByte :: pkt.body = line)
    ∧ (∀ line : List Nat, line.head? = some colonByte → lineToPacket line = none)
    ∧ (Packet.mk [107] [49]).key ++ colonByte :: (Packet.mk [107] [49]).body ∈
        ([colonByte, 97, newlineByte, 107, colonByte, 49].splitOn newlineByte) :=
  parseMessage_packet_invariants [colonByte, 97, newlineByte, 107, colonByte, 49]
    ⟨[107], [49]⟩ (by decide)

/-! ### Key rewriting claim (C5) -/

lemma replaceAllFuel_eq_self_of_no_match (m : MatchOracle) (fuel : Nat) (key : List Nat)
    (hnom : ∀ s : List Nat, s.IsSuffix key → m s = none) :
    replaceAllFuel m fuel key = key := by
  induction fuel generalizing key with
  | zero => rfl
  | succ fuel ih =>
    cases key with
    | nil =>
      unfold replaceAllFuel
      rw [hnom [] (List.suffix_refl _)]
    | cons c rest =>
      unfold replaceAllFuel
      rw [hnom (c :: rest) (List.suffix_refl _)]
      exact congrArg (List.cons c)
        (ih rest (fun s hs => hnom s (hs.trans (List.suffix_cons c rest))))

lemma replaceAll_eq_self_of_no_match (m : MatchOracle) (key : List Nat)
    (hnom : ∀ s : List Nat, s.IsSuffix key → m s = none) :
    replaceAll m key = key :=
  replaceAllFuel_eq_self_of_no_match m (key.length + 1) key hnom

/-- Claim C5: key rewriting is a deterministic pure function — the same
pattern/template oracle applied to the same key always yields the same
output bytes — and a key in which the pattern matches nowhere is returned
unchanged, byte-for-byte. -/
theorem replaceAll_pure_and_no_match_id (m m' : MatchOracle) (key key' : List Nat)
    (hm : m = m') (hk : key = key')
    (hnom : ∀ s : List Nat, s.IsSuffix key → m s = none) :
    replaceAll m key = replaceAll m' key' ∧ replaceAll m key = key :=
  ⟨by rw [hm, hk], replaceAll_eq_self_of_no_match m key hnom⟩

/-- Witness for C5 with a never-matching oracle on a concrete key. -/
theorem replaceAll_pure_and_no_match_id_witness :
    replaceAll (fun _ => none) [107, 101] = replaceAll (fun _ => none) [107, 101] ∧
    replaceAll (fun _ => none) [107, 101] = [107, 101] :=
  replaceAll_pure_and_no_match_id _ _ _ _ rfl rfl (fun _ _ => rfl)

/-! ### Router lemmas and claims (C3, C4, C6, C7) -/

lemma sendsForDest_append (j : Nat) (a b : List Event) :
    sendsForDest j (a ++ b) = sendsForDest j a ++ sendsForDest j b :=
  List.filterMap_append a b _

lemma sendToDest_not_dead (o : Oracle) (i : Nat) (d : Destination) (p : Packet)
    (st : RouterState) (hd : st.dead = false)
    (h : o.writeOk (st.conns.getD i 0) (outboundPayload d p) = true ∨
      o.dialOk d.address st.nextSock = true) :
    (sendToDest o i d p st).dead = false := by
  unfold sendToDest
  rw [if_neg (by rw [hd]; exact Bool.false_ne_true)]
  by_cases hwk : o.writeOk (st.conns.getD i 0) (outboundPayload d p) = true
  · rw [if_pos hwk]
    exact hd
  · rw [if_neg hwk]
    rcases h with h | h
    · exact absurd h hwk
    · rw [if_pos h]

lemma sendToDest_events_shape (o : Oracle) (i : Nat) (d : Destination) (p : Packet)
    (st : RouterState) :
    ∃ tl : List Event, (sendToDest o i d p st).events = st.events ++ tl ∧
      (∀ j, j ≠ i → sendsForDest j tl = []) ∧
      (st.dead = false → sendsForDest i tl = [outboundPayload d p]) := by
  unfold sendToDest
  by_cases hdead : st.dead = true
  · rw [if_pos hdead]
    exact ⟨[], (List.append_nil _).symm, fun j _ => rfl,
      fun hf => absurd hdead (by rw [hf]; exact Bool.false_ne_true)⟩
  · rw [if_neg hdead]
    by_cases hwk : o.writeOk (st.conns.getD i 0) (outboundPayload d p) = true
    · rw [if_pos hwk]
      refine ⟨[Event.send i (st.conns.getD i 0) (outboundPayload d p) true], rfl, ?_, ?_⟩
      · intro j hj
        simp [sendsForDest, Ne.symm hj]
      · intro _
        simp [sendsForDest]
    · rw [if_neg hwk]
      by_cases hdial : o.dialOk d.address st.nextSock = true
      · rw [if_pos hdial]
        refine ⟨[Event.send i (st.conns.getD i 0) (outboundPayload d p) false,
          Event.reconnect i d.address st.nextSock true], rfl, ?_, ?_⟩
        · intro j hj
          simp [sendsForDest, Ne.symm hj]
        · intro _
          simp [sendsForDest]
      · rw [if_neg hdial]
        refine ⟨[Event.send i (st.conns.getD i 0) (outboundPayload d p) false,
          Event.reconnect i d.address st.nextSock false], rfl, ?_, ?_⟩
        · intro j hj
          simp [sendsForDest, Ne.symm hj]
        · intro _
          simp [sendsForDest]

lemma processRecordFrom_all_writes_ok (o : Oracle) (p : Packet)
    (dests : List Destination) (k : Nat) (st : RouterState)
    (hw : ∀ s pl, o.writeOk s pl = true) (hd : st.dead = false) :
    processRecordFrom o dests k p st =
      { st with events := st.events ++ (List.enumFrom k dests).map (fun x =>
          Event.send x.1 (st.conns.getD x.1 0) (outboundPayload x.2 p) true) } := by
  induction dests generalizing k st with
  | nil =>
    simp [processRecordFrom]
  | cons d rest ih =>
    have hstep : sendToDest o k d p st =
        { st with events := st.events ++
            [Event.send k (st.conns.getD k 0) (outboundPayload d p) true] } := by
      unfold sendToDest
      rw [if_neg (by rw [hd]; exact Bool.false_ne_true), if_pos (hw _ _)]
    have h1 := ih (k + 1)
      { st with events := st.events ++ [Event.send k (st.conns.getD k 0) (outboundPayload d p) true] } hd
    rw [processRecordFrom, hstep, h1]
    simp [List.enumFrom_cons, List.append_assoc]

lemma foldl_processRecord_all_writes_ok (o : Oracle) (dests : List Destination)
    (recs : List Packet) (st : RouterState)
    (hw : ∀ s pl, o.writeOk s pl = true) (hd : st.dead = false) :
    recs.foldl (fun s p => processRecord o dests p s) st =
      { st with events := st.events ++ recs.flatMap (fun p =>
          (List.enumFrom 0 dests).map
            (fun x => Event.send x.1 (st.conns.getD x.1 0) (outboundPayload x.2 p) true)) } := by
  induction recs generalizing st with
  | nil => simp
  | cons q rest ih =>
    simp only [List.foldl_cons]
    rw [show processRecord o dests q st = _ from
      processRecordFrom_all_writes_ok o q dests 0 st hw hd]
    have h1 := ih
      { st with events := st.events ++ (List.enumFrom 0 dests).map (fun x => Event.send x.1 (st.conns.getD x.1 0) (outboundPayload x.2 q) true) } hd
    rw [h1]
    simp [List.flatMap_cons, List.append_assoc]

lemma processRecordFrom_sends_lt (o : Oracle) (p : Packet)
    (dests : List Destination) (k j : Nat) (st : RouterState) (hj : j < k) :
    sendsForDest j (processRecordFrom o dests k p st).events
      = sendsForDest j st.events := by
  induction dests generalizing k st with
  | nil => rfl
  | cons d rest ih =>
    rw [processRecordFrom]
    rcases sendToDest_events_shape o k d p st with ⟨tl, hev, hne, _⟩
    rw [ih (k + 1) _ (by omega), hev, sendsForDest_append, hne j (by omega)]
    simp

lemma processRecordFrom_sends (o : Oracle) (p : Packet)
    (dests : List Destination) (k j : Nat) (st : RouterState)
    (hnf : ∀ (i : Nat) (d : Destination) (q : Packet) (s : RouterState),
      s.dead = false → (sendToDest o i d q s).dead = false)
    (hd : st.dead = false) (hk : k ≤ j) (hj : j < k + dests.length) :
    sendsForDest j (processRecordFrom o dests k p st).events
      = sendsForDest j st.events ++ [outboundPayload (dests.getD (j - k) default) p] := by
  induction dests generalizing k st with
  | nil =>
    exfalso
    simp at hj
    omega
  | cons d rest ih =>
    rw [processRecordFrom]
    by_cases hjk : j = k
    · subst hjk
      rw [processRecordFrom_sends_lt o p rest (j + 1) j _ (by omega)]
      rcases sendToDest_events_shape o j d p st with ⟨tl, hev, _, hyes⟩
      rw [hev, sendsForDest_append, hyes hd]
      simp [Nat.sub_self]
    · have hlen : j < (k + 1) + rest.length := by
        simp only [List.length_cons] at hj
        omega
      rw [ih (k + 1) _ (hnf k d p st hd) (by omega) hlen]
      rcases sendToDest_events_shape o k d p st with ⟨tl, hev, hne, _⟩
      rw [hev, sendsForDest_append, hne j (by omega)]
      have hidx : j - k = (j - (k + 1)) + 1 := by omega
      rw [hidx, List.getD_cons_succ]
      simp

/-- Claim C3: the router handles one datagram's parsed records strictly in
their order within the datagram and, for each record, iterates the
destinations in configuration (index) order: with every write succeeding,
the event trace extends by exactly the per-record, per-destination send
events in that nested order. -/
theorem processDatagram_order (o : Oracle) (dests : List Destination)
    (data : List Nat) (st : RouterState)
    (hw : ∀ s pl, o.writeOk s pl = true) (hd : st.dead = false) :
    (processDatagram o dests data st).events
      = st.events ++ (parseMessage data).flatMap (fun p =>
          (List.enumFrom 0 dests).map (fun x =>
            Event.send x.1 (st.conns.getD x.1 0) (outboundPayload x.2 p) true)) := by
  unfold processDatagram
  rw [foldl_processRecord_all_writes_ok o dests (parseMessage data) st hw hd]

/-- Witness for C3: one datagram, two destinations, all writes succeed. -/
theorem processDatagram_order_witness :
    (processDatagram oracleAllOk [destIdA, destIdB] [107, colonByte, 49] stInit).events
      = stInit.events ++ (parseMessage [107, colonByte, 49]).flatMap (fun p =>
          (List.enumFrom 0 [destIdA, destIdB]).map (fun x =>
            Event.send x.1 (stInit.conns.getD x.1 0) (outboundPayload x.2 p) true)) :=
  processDatagram_order oracleAllOk [destIdA, destIdB] [107, colonByte, 49] stInit
    (fun _ _ => rfl) rfl

/-- Claim C4: for every parsed record and every destination index, exactly
one outbound datagram is produced, whose payload is the rewritten key
(all non-overlapping pattern matches replaced by the expanded template),
one colon byte, then the record's body — and nothing after it (no
trailing newline). -/
theorem processRecord_one_send_per_destination (o : Oracle) (dests : List Destination)
    (p : Packet) (st : RouterState) (j : Nat)
    (hw : ∀ s pl, o.writeOk s pl = true) (hd : st.dead = false) (hj : j < dests.length) :
    sendsForDest j (processRecord o dests p st).events
      = sendsForDest j st.events ++
        [replaceAll (dests.getD j default).regex p.key ++ colonByte :: p.body] := by
  have hnf : ∀ (i : Nat) (d : Destination) (q : Packet) (s : RouterState),
      s.dead = false → (sendToDest o i d q s).dead = false :=
    fun i d q s hsd => sendToDest_not_dead o i d q s hsd (Or.inl (hw _ _))
  have h := processRecordFrom_sends o p dests 0 j st hnf hd (Nat.zero_le j) (by omega)
  simpa [outboundPayload] using h

/-- Witness for C4 at destination index 0 of two destinations. -/
theorem processRecord_one_send_per_destination_witness :
    sendsForDest 0 (processRecord oracleAllOk [destIdA, destIdB] ⟨[107], [49]⟩ stInit).events
      = sendsForDest 0 stInit.events ++
        [replaceAll (([destIdA, destIdB].getD 0 default)).regex [107] ++ colonByte :: [49]] :=
  processRecord_one_send_per_destination oracleAllOk [destIdA, destIdB] ⟨[107], [49]⟩ stInit 0
    (fun _ _ => rfl) rfl (by decide)

/-- Claim C6: when a write fails while the process is alive, the very next
action is a single reconnect dial toward the same destination's address;
the failed payload was written exactly once and is never re-sent; if the
dial fails the process is dead (and a dead process performs no further
actions at all); if the dial succeeds the fresh socket replaces the broken
one at that destination's index, so subsequent sends to it use the new
socket. -/
theorem sendToDest_write_failure_reconnect (o : Oracle) (i : Nat) (d : Destination)
    (p : Packet) (st : RouterState)
    (hd : st.dead = false) (hi : i < st.conns.length)
    (hfail : o.writeOk (st.conns.getD i 0) (outboundPayload d p) = false) :
    (sendToDest o i d p st).events
      = st.events ++
        [Event.send i (st.conns.getD i 0) (outboundPayload d p) false,
         Event.reconnect i d.address st.nextSock (o.dialOk d.address st.nextSock)]
    ∧ sendsForDest i (sendToDest o i d p st).events
        = sendsForDest i st.events ++ [outboundPayload d p]
    ∧ (o.dialOk d.address st.nextSock = false → (sendToDest o i d p st).dead = true)
    ∧ (o.dialOk d.address st.nextSock = true →
        (sendToDest o i d p st).dead = false ∧
        (sendToDest o i d p st).conns.getD i 0 = st.nextSock)
    ∧ (∀ (o' : Oracle) (i' : Nat) (d' : Destination) (q : Packet) (s : RouterState),
        s.dead = true → sendToDest o' i' d' q s = s) := by
  have hkill : ∀ (o' : Oracle) (i' : Nat) (d' : Destination) (q : Packet) (s : RouterState),
      s.dead = true → sendToDest o' i' d' q s = s := by
    intro o' i' d' q s hs
    unfold sendToDest
    rw [if_pos hs]
  have hno : ¬(st.dead = true) := by
    rw [hd]
    exact Bool.false_ne_true
  have hnw : ¬(o.writeOk (st.conns.getD i 0) (outboundPayload d p) = true) := by
    rw [hfail]
    exact Bool.false_ne_true
  by_cases hdial : o.dialOk d.address st.nextSock = true
  · have hst : sendToDest o i d p st =
        { conns := st.conns.set i st.nextSock
          nextSock := st.nextSock + 1
          events := st.events ++
            [Event.send i (st.conns.getD i 0) (outboundPayload d p) false,
             Event.reconnect i d.address st.nextSock true]
          dead := false } := by
      unfold sendToDest
      rw [if_neg hno, if_neg hnw, if_pos hdial]
    rw [hst, hdial]
    refine ⟨rfl, ?_, ?_, ?_, hkill⟩
    · rw [sendsForDest_append]
      simp [sendsForDest]
    · intro hcontra
      exact absurd hcontra (by decide)
    · intro _
      refine ⟨rfl, ?_⟩
      rw [List.getD_eq_getElem?_getD, List.getElem?_set_self hi]
      rfl
  · have hdf : o.dialOk d.address st.nextSock = false := by
      cases h : o.dialOk d.address st.nextSock
      · rfl
      · exact absurd h hdial
    have hst : sendToDest o i d p st =
        { st with
          nextSock := st.nextSock + 1
          events := st.events ++
            [Event.send i (st.conns.getD i 0) (outboundPayload d p) false,
             Event.reconnect i d.address st.nextSock false]
          dead := true } := by
      unfold sendToDest
      rw [if_neg hno, if_neg hnw, if_neg hdial]
    rw [hst, hdf]
    refine ⟨rfl, ?_, fun _ => rfl, ?_, hkill⟩
    · rw [sendsForDest_append]
      simp [sendsForDest]
    · intro hcontra
      exact absurd hcontra (by decide)

/-- Witness for C6 with a failing write and a succeeding dial. -/
theorem sendToDest_write_failure_reconnect_witness :
    (sendToDest oracleWritesFail 0 destIdA ⟨[107], [49]⟩ stInit).events
      = stInit.events ++
        [Event.send 0 (stInit.conns.getD 0 0) (outboundPayload destIdA ⟨[107], [49]⟩) false,
         Event.reconnect 0 destIdA.address stInit.nextSock
           (oracleWritesFail.dialOk destIdA.address stInit.nextSock)]
    ∧ sendsForDest 0 (sendToDest oracleWritesFail 0 destIdA ⟨[107], [49]⟩ stInit).events
        = sendsForDest 0 stInit.events ++ [outboundPayload destIdA ⟨[107], [49]⟩]
    ∧ (oracleWritesFail.dialOk destIdA.address stInit.nextSock = false →
        (sendToDest oracleWritesFail 0 destIdA ⟨[107], [49]⟩ stInit).dead = true)
    ∧ (oracleWritesFail.dialOk destIdA.address stInit.nextSock = true →
        (sendToDest oracleWritesFail 0 destIdA ⟨[107], [49]⟩ stInit).dead = false ∧
        (sendToDest oracleWritesFail 0 destIdA ⟨[107], [49]⟩ stInit).conns.getD 0 0
          = stInit.nextSock)
    ∧ (∀ (o' : Oracle) (i' : Nat) (d' : Destination) (q : Packet) (s : RouterState),
        s.dead = true → sendToDest o' i' d' q s = s) :=
  sendToDest_write_failure_reconnect oracleWritesFail 0 destIdA ⟨[107], [49]⟩ stInit
    rfl (by decide) rfl

/-- Claim C7: send failures are isolated per destination — with arbitrary
write outcomes, as long as the failure handling itself completes (every
reconnect dial succeeds, the non-fatal case of C6), every destination,
including every one after a failing destination in configuration order,
still receives exactly its one rewritten send for the record. -/
theorem processRecord_failure_isolation (o : Oracle) (dests : List Destination)
    (p : Packet) (st : RouterState) (j : Nat)
    (hdial : ∀ a n, o.dialOk a n = true) (hd : st.dead = false) (hj : j < dests.length) :
    sendsForDest j (processRecord o dests p st).events
      = sendsForDest j st.events ++ [outboundPayload (dests.getD j default) p] := by
  have hnf : ∀ (i : Nat) (d : Destination) (q : Packet) (s : RouterState),
      s.dead = false → (sendToDest o i d q s).dead = false :=
    fun i d q s hsd => sendToDest_not_dead o i d q s hsd (Or.inr (hdial _ _))
  have h := processRecordFrom_sends o p dests 0 j st hnf hd (Nat.zero_le j) (by omega)
  simpa using h

/-- Witness for C7: every write fails, yet destination 1 still gets its
send after destination 0's failure. -/
theorem processRecord_failure_isolation_witness :
    sendsForDest 1 (processRecord oracleWritesFail [destIdA, destIdB] ⟨[107], [49]⟩ stInit).events
      = sendsForDest 1 stInit.events ++ [outboundPayload destIdB ⟨[107], [49]⟩] :=
  processRecord_failure_isolation oracleWritesFail [destIdA, destIdB] ⟨[107], [49]⟩ stInit 1
    (fun _ _ => rfl) rfl (by decide)

/-! ### Ingress read loop claims (C8) -/

lemma udpListenerLoopFrom_buf_ge (b : Nat) (reads : List (Option (List Nat))) :
    ∀ h ∈ udpListenerLoopFrom b reads, b ≤ h.buf := by
  induction reads generalizing b with
  | nil =>
    intro h hh
    cases hh
  | cons r rest ih =>
    cases r with
    | none =>
      intro h hh
      have := ih (b + 1) h hh
      omega
    | some d =>
      intro h hh
      rcases List.mem_cons.mp hh with rfl | hh
      · simp
      · have := ih (b + 1) h hh
        omega

lemma udpListenerLoopFrom_nodup (b : Nat) (reads : List (Option (List Nat))) :
    ((udpListenerLoopFrom b reads).map Handoff.buf).Nodup := by
  induction reads generalizing b with
  | nil => simp [udpListenerLoopFrom]
  | cons r rest ih =>
    cases r with
    | none =>
      simpa [udpListenerLoopFrom] using ih (b + 1)
    | some d =>
      simp only [udpListenerLoopFrom, List.map_cons, List.nodup_cons]
      refine ⟨?_, ih (b + 1)⟩
      intro hmem
      rcases List.mem_map.mp hmem with ⟨h, hh, hb⟩
      have := udpListenerLoopFrom_buf_ge (b + 1) rest h hh
      omega

lemma udpListenerLoopFrom_eq (b : Nat) (reads : List (Option (List Nat))) :
    udpListenerLoopFrom b reads
      = (List.enumFrom b reads).filterMap (fun x =>
          x.2.map (fun d => Handoff.mk x.1 (d.take 512))) := by
  induction reads generalizing b with
  | nil => rfl
  | cons r rest ih =>
    cases r with
    | none =>
      simp [udpListenerLoopFrom, List.enumFrom_cons, List.filterMap_cons, ih (b + 1)]
    | some d =>
      simp [udpListenerLoopFrom, List.enumFrom_cons, List.filterMap_cons, ih (b + 1)]

/-- Claim C8 counterexample: in the v0.1 listener of part_000 (lines
93-99) the buffer is allocated before the loop, so two consecutive
successful iterations hand off the SAME buffer (id 0 both times) — the
buffer is reused across read iterations, contradicting the claim for this
variant of the read loop. -/
theorem udpListenerLoopV1_reuses_buffer :
    udpListenerLoopV1 [some [65], some [66]] = [⟨0, [65]⟩, ⟨0, [66]⟩] ∧
    (udpListenerLoopV1 [some [65], some [66]]).map Handoff.buf = [0, 0] := by
  constructor <;> rfl

/-- Claim C8 amended: in the channel variant (main.go lines 122-132) every
iteration reads into a freshly allocated buffer — the handed-off buffer
ids are the iteration indices, pairwise distinct, never reused — and the
bytes handed onward are exactly the first `min(n, 512)` bytes of the
datagram (payloads beyond 512 bytes are truncated to the buffer size); in
the single-threaded v0.1 variant one pre-loop buffer (id 0) is reused by
every iteration. -/
theorem udpListenerLoop_fresh_buffers (reads : List (Option (List Nat))) :
    udpListenerLoop reads
      = (List.enumFrom 0 reads).filterMap (fun x =>
          x.2.map (fun d => Handoff.mk x.1 (d.take 512)))
    ∧ ((udpListenerLoop reads).map Handoff.buf).Nodup
    ∧ (∀ h ∈ udpListenerLoopV1 reads, h.buf = 0) := by
  refine ⟨udpListenerLoopFrom_eq 0 reads, udpListenerLoopFrom_nodup 0 reads, ?_⟩
  intro h hh
  rcases List.mem_filterMap.mp hh with ⟨r, _, hr⟩
  cases r with
  | none => cases hr
  | some d =>
    have : Handoff.mk 0 (d.take 512) = h := Option.some.inj hr
    rw [← this]

/-- Witness for C8 (amended): a concrete three-iteration run with one read
error. -/
theorem udpListenerLoop_fresh_buffers_witness :
    udpListenerLoop [some [65], none, some [66]]
      = (List.enumFrom 0 [some [65], none, some [66]]).filterMap (fun x =>
          x.2.map (fun d => Handoff.mk x.1 (d.take 512)))
    ∧ ((udpListenerLoop [some [65], none, some [66]]).map Handoff.buf).Nodup
    ∧ (∀ h ∈ udpListenerLoopV1 [some [65], none, some [66]], h.buf = 0) :=
  udpListenerLoop_fresh_buffers [some [65], none, some [66]]

/-! ### Startup guard claim (C9) -/

/-- Claim C9: with zero configured destinations, startup fails fast — the
only action is the fatal log-and-non-zero-exit; no inbound socket is ever
bound and no destination is ever dialed, so no partial listener state is
created. -/
theorem mainStart_no_destinations (dests : List Destination)
    (hz : dests.length = 0) :
    mainStart dests = [StartAction.fatalExit]
    ∧ StartAction.bindSocket ∉ mainStart dests
    ∧ (∀ a, StartAction.dialDest a ∉ mainStart dests)
    ∧ StartAction.fatalExit ∈ mainStart dests := by
  have h : mainStart dests = [StartAction.fatalExit] := by
    unfold mainStart
    rw [if_pos hz]
  refine ⟨h, ?_, ?_, ?_⟩
  · rw [h]
    simp
  · intro a
    rw [h]
    simp
  · rw [h]
    simp

/-- Witness for C9 at the empty destination list. -/
theorem mainStart_no_destinations_witness :
    mainStart [] = [StartAction.fatalExit]
    ∧ StartAction.bindSocket ∉ mainStart []
    ∧ (∀ a, StartAction.dialDest a ∉ mainStart [])
    ∧ StartAction.fatalExit ∈ mainStart [] :=
  mainStart_no_destinations [] rfl

end Statsdtee
